import Mathlib

set_option maxHeartbeats 1000000

/-!
Verification development for the TranSuDeck markdown → PPTX rendering core
(`src/app/core/pptx_generator.py` and `src/app/utils/helpers.py`).

Strings are modelled as `List Char`; the Python regular expressions used by the
source are modelled by explicit scanning functions with the same backtracking
semantics (lazy and greedy quantifiers, lookarounds) on the concrete patterns
that occur in the source.  Font sizes are in points (`Pt(n)` ↦ `n`).
-/

/-- Python whitespace (the characters matched by `\s` and stripped by
`str.strip`/`str.lstrip`/`str.rstrip` for ASCII input). -/
def pyIsSpace (c : Char) : Bool :=
  c == ' ' || c == '\t' || c == '\n' || c == '\r' || c == '\x0b' || c == '\x0c'

/-- Embedding of Python `str.lstrip()`. -/
def pyLStrip (l : List Char) : List Char := l.dropWhile pyIsSpace

/-- Embedding of Python `str.rstrip()`. -/
def pyRStrip (l : List Char) : List Char := (l.reverse.dropWhile pyIsSpace).reverse

/-- Embedding of Python `str.strip()`. -/
def pyStrip (l : List Char) : List Char := pyRStrip (pyLStrip l)

/-- Backtracking match of the regex tail `\s+(.+)$` (as in `^(#{1,6})\s+(.+)$`,
`^-\s+(.+)$`, `^(\d+)\.\s+(.+)$`): the greedy `\s+` first takes the whole
leading whitespace run (length `k`), and on failure backtracks one character at
a time down to a single whitespace character; `(.+)` then greedily takes a
nonempty run of non-newline characters, and `$` accepts at end of input or
before a single final newline.  Returns the text captured by `(.+)`. -/
def wsTextEndAux (cs : List Char) : Nat → Option (List Char)
  | 0 => none
  | k + 1 =>
    let rest := cs.drop (k + 1)
    let r := rest.takeWhile (fun c => c != '\n')
    if r ≠ [] ∧ (rest.drop r.length = [] ∨ rest.drop r.length = ['\n']) then some r
    else wsTextEndAux cs k

/-- Match `\s+(.+)$` against `cs` (see `wsTextEndAux`). -/
def matchWsTextEnd (cs : List Char) : Option (List Char) :=
  wsTextEndAux cs (cs.takeWhile pyIsSpace).length

/-- Embedding of `re.match(r"^(#{1,6})\s+(.+)$", line)`: a maximal run of `#`
of length 1..6 (a longer run makes every backtracking alternative hit a `#`
where `\s` is required, so the whole match fails), then `\s+(.+)$`.
Returns (heading level, captured text). -/
def headingMatch (line : List Char) : Option (Nat × List Char) :=
  let hs := line.takeWhile (fun c => c == '#')
  if 1 ≤ hs.length ∧ hs.length ≤ 6 then
    (matchWsTextEnd (line.drop hs.length)).map (fun t => (hs.length, t))
  else none

/-- Embedding of `re.match(r"^-\s+(.+)$", line)`. -/
def bulletMatch (line : List Char) : Option (List Char) :=
  match line with
  | c :: rest => if c = '-' then matchWsTextEnd rest else none
  | [] => none

/-- Value of a decimal digit string, as computed by Python `int(...)`. -/
def digitsVal (ds : List Char) : Nat :=
  ds.foldl (fun a c => 10 * a + (c.toNat - '0'.toNat)) 0

/-- Embedding of `re.match(r"^(\d+)\.\s+(.+)$", line)`: a maximal digit run
(backtracking cannot help since a shorter run is followed by a digit, not `.`),
then a literal `.`, then `\s+(.+)$`. -/
def numberedMatch (line : List Char) : Option (Nat × List Char) :=
  let ds := line.takeWhile Char.isDigit
  if ds ≠ [] then
    match line.drop ds.length with
    | c :: rest => if c = '.' then (matchWsTextEnd rest).map (fun t => (digitsVal ds, t)) else none
    | [] => none
  else none

/-- The `format_info` dictionary built by `MarkdownParser.parse_line`.  The
empty dictionary returned for an empty line is observationally the default
record (every consumer reads it through `.get` with these defaults). -/
structure FormatInfo where
  bold : Bool := false
  italic : Bool := false
  underline : Bool := false
  is_heading : Bool := false
  heading_level : Nat := 0
  is_bullet : Bool := false
  is_numbered : Bool := false
  number : Option Nat := none
  deriving DecidableEq

/-- Result triple of `MarkdownParser.parse_line`. -/
structure ParsedLine where
  text : List Char
  indent : Nat
  fmt : FormatInfo
  deriving DecidableEq

/-- Embedding of `MarkdownParser.parse_line`: measure the leading whitespace
run (`indent = count // 2`), strip it, then try the heading, bullet and
numbered patterns in order, falling back to plain text. -/
def parse_line (l : List Char) : ParsedLine :=
  if l = [] then ⟨[], 0, {}⟩
  else
    let indent_level := (l.takeWhile pyIsSpace).length / 2
    let line := l.dropWhile pyIsSpace
    match headingMatch line with
    | some (k, t) => ⟨t, indent_level, { is_heading := true, heading_level := k }⟩
    | none =>
      match bulletMatch line with
      | some t => ⟨t, indent_level, { is_bullet := true }⟩
      | none =>
        match numberedMatch line with
        | some (n, t) => ⟨t, indent_level, { is_numbered := true, number := some n }⟩
        | none => ⟨line, indent_level, {}⟩

/-- Specification-side restatement of the classification cascade of
`parse_line`, applied to a line whose leading whitespace is already removed.
Used to state that `parse_line` classifies the whitespace-stripped line. -/
def classifyLine (line : List Char) : List Char × FormatInfo :=
  match headingMatch line with
  | some (k, t) => (t, { is_heading := true, heading_level := k })
  | none =>
    match bulletMatch line with
    | some t => (t, { is_bullet := true })
    | none =>
      match numberedMatch line with
      | some (n, t) => (t, { is_numbered := true, number := some n })
      | none => (line, {})

/-- Lazy search for a closing delimiter: match `(.+?)delim` against `cs`,
returning (inner text, remainder after the delimiter) for the leftmost
(shortest-inner) match.  The inner text is nonempty. -/
def lazyClose (delim : List Char) : List Char → Option (List Char × List Char)
  | [] => none
  | c :: cs =>
    if delim.isPrefixOf cs then some ([c], cs.drop delim.length)
    else
      match lazyClose delim cs with
      | some (inner, rest) => some (c :: inner, rest)
      | none => none

/-- Embedding of `re.match(r"^(.*?)(D1(.+?)D1|D2(.+?)D2)", s)` for symmetric
delimiters `D1`, `D2` (patterns `***`/`___` and `**`/`__` of
`extract_formatting_segments`): the lazy `(.*?)` advances one position at a
time, and at each position the first alternative is tried before the second.
Returns (text before the match, inner text, remainder after the match). -/
def scanPair (d1 d2 : List Char) : List Char → Option (List Char × List Char × List Char)
  | [] => none
  | c :: cs =>
    match (if d1.isPrefixOf (c :: cs) then lazyClose d1 ((c :: cs).drop d1.length) else none) with
    | some (inner, rest) => some ([], inner, rest)
    | none =>
      match (if d2.isPrefixOf (c :: cs) then lazyClose d2 ((c :: cs).drop d2.length) else none) with
      | some (inner, rest) => some ([], inner, rest)
      | none =>
        match scanPair d1 d2 cs with
        | some (pre, inner, rest) => some (c :: pre, inner, rest)
        | none => none

/-- Lazy search for the closing delimiter of the italic pattern:
`(.+?)(?<!d)d(?!d)`.  The closing `d` must not be preceded by `d` (so the
inner text must not end in `d`) and must not be followed by `d`. -/
def italicClose (d : Char) : List Char → Option (List Char × List Char)
  | [] => none
  | [_] => none
  | c :: c2 :: cs =>
    if c2 == d && c != d && cs.head? != some d then some ([c], cs)
    else
      match italicClose d (c2 :: cs) with
      | some (inner, rest) => some (c :: inner, rest)
      | none => none

/-- Embedding of `re.match(r"^(.*?)(?<!d)d(?!d)(.+?)(?<!d)d(?!d)", s)` for
`d ∈ {*, _}` (the italic patterns): the lazy `(.*?)` advances one position at
a time, carrying the previous character for the lookbehind. -/
def scanItalic (d : Char) : Option Char → List Char → Option (List Char × List Char × List Char)
  | _, [] => none
  | prev, c :: cs =>
    if c == d && prev != some d && cs.head? != some d then
      match italicClose d cs with
      | some (inner, rest) => some ([], inner, rest)
      | none =>
        match scanItalic d (some c) cs with
        | some (pre, inner, rest) => some (c :: pre, inner, rest)
        | none => none
    else
      match scanItalic d (some c) cs with
      | some (pre, inner, rest) => some (c :: pre, inner, rest)
      | none => none

/-- Embedding of `re.match(r"^(.*?)<u>(.+?)</u>", s)`. -/
def scanUnderline : List Char → Option (List Char × List Char × List Char)
  | [] => none
  | c :: cs =>
    match (if "<u>".toList.isPrefixOf (c :: cs) then
             lazyClose "</u>".toList ((c :: cs).drop 3) else none) with
    | some (inner, rest) => some ([], inner, rest)
    | none =>
      match scanUnderline cs with
      | some (pre, inner, rest) => some (c :: pre, inner, rest)
      | none => none

/-- One `(text, bold, italic, underline)` tuple produced by
`MarkdownParser.extract_formatting_segments`. -/
structure Segment where
  text : List Char
  bold : Bool
  italic : Bool
  underline : Bool
  deriving DecidableEq

/-- The `if match.group(1): segments.append((match.group(1), False, False, False))`
step: a nonempty prefix is emitted as a plain segment. -/
def preSegs (pre : List Char) : List Segment :=
  if pre = [] then [] else [⟨pre, false, false, false⟩]

/-- The `while remaining_text:` loop of `extract_formatting_segments`, with a
fuel parameter bounding the iteration count (each iteration consumes at least
one character, so `length + 1` fuel is never exhausted).  Patterns are tried
in source order: bold+italic, bold, italic (`*` then `_`), underline; when no
pattern matches, the whole remainder is one plain segment. -/
def extractLoop : Nat → List Char → List Segment
  | 0, _ => []
  | _ + 1, [] => []
  | fuel + 1, cs =>
    match scanPair "***".toList "___".toList cs with
    | some (pre, inner, rest) => preSegs pre ++ ⟨inner, true, true, false⟩ :: extractLoop fuel rest
    | none =>
      match scanPair "**".toList "__".toList cs with
      | some (pre, inner, rest) => preSegs pre ++ ⟨inner, true, false, false⟩ :: extractLoop fuel rest
      | none =>
        match (match scanItalic '*' none cs with
               | some r => some r
               | none => scanItalic '_' none cs) with
        | some (pre, inner, rest) =>
          preSegs pre ++ ⟨inner, false, true, false⟩ :: extractLoop fuel rest
        | none =>
          match scanUnderline cs with
          | some (pre, inner, rest) =>
            preSegs pre ++ ⟨inner, false, false, true⟩ :: extractLoop fuel rest
          | none => [⟨cs, false, false, false⟩]

/-- Embedding of `MarkdownParser.extract_formatting_segments`. -/
def extract_formatting_segments (text : List Char) : List Segment :=
  if text = [] then [⟨[], false, false, false⟩]
  else
    let segs := extractLoop (text.length + 1) text
    if segs = [] then [⟨text, false, false, false⟩] else segs

/-- One text run of a rendered paragraph.  Font attributes left unset by the
code (inheriting from the layout) are `none`; `python-pptx` setters that the
code executes produce `some` values.  Sizes are in points. -/
structure RunD where
  text : List Char
  bold : Option Bool := none
  italic : Option Bool := none
  underline : Option Bool := none
  size : Option Nat := none
  deriving DecidableEq

/-- List formatting applied to a paragraph's `pPr` by `_set_content`:
`buNone` (bullet suppressed), `buAutoNum` of type `arabicPeriod` with an
optional `startAt`, or nothing (the layout's default bullet is inherited). -/
inductive BulletD where
  | buNone : BulletD
  | buAutoNum : Option Nat → BulletD
  | inherit : BulletD
  deriving DecidableEq

/-- Descriptor of one paragraph emitted by `PPTXGenerator._set_content`.
`spaceAfter` is in points. -/
structure ParaD where
  level : Nat
  bullet : BulletD
  runs : List RunD
  spaceAfter : Nat := 6
  deriving DecidableEq

/-- Embedding of `MarkdownParser.apply_formatting_to_paragraph`, as the list of
runs it adds to a paragraph: empty text leaves the paragraph untouched;
otherwise each nonempty segment becomes a run, and a font flag is set only when
the corresponding segment flag is true (otherwise left unset). -/
def apply_formatting_to_paragraph (text : List Char) : List RunD :=
  if text = [] then []
  else
    (extract_formatting_segments text).foldl
      (fun acc s =>
        if s.text = [] then acc
        else acc ++ [{ text := s.text,
                       bold := if s.bold then some true else none,
                       italic := if s.italic then some true else none,
                       underline := if s.underline then some true else none,
                       size := none }]) []

/-- The fixed heading font size table of `PPTXGenerator._apply_heading_format`
(`font_sizes.get(heading_level, 16)`). -/
def font_sizes (heading_level : Nat) : Nat :=
  match heading_level with
  | 3 => 20
  | 4 => 18
  | 5 => 16
  | 6 => 14
  | _ => 16

/-- Embedding of `PPTXGenerator._apply_heading_format`: every run of the
paragraph gets the table font size and `bold = True`. -/
def apply_heading_format (runs : List RunD) (heading_level : Nat) : List RunD :=
  runs.map (fun r => { r with size := some (font_sizes heading_level), bold := some true })

/-- The `if run.font.size is None: run.font.size = Pt(14)` loop applied in the
numbered, bullet and plain branches of `_set_content`. -/
def defaultSize14 (runs : List RunD) : List RunD :=
  runs.map (fun r => if r.size = none then { r with size := some 14 } else r)

/-- Body of the per-line loop of `PPTXGenerator._set_content`: blank lines and
lines whose parsed text is empty are skipped; headings of level ≤ 2 are
skipped; a level ≥ 3 heading yields a bullet-suppressed paragraph with heading
formatting; a numbered line yields an auto-numbered paragraph whose counter
restarts at `n` when `n > 1`; a bullet line keeps the layout bullet; plain
text is bullet-suppressed.  Every emitted paragraph has 6 pt trailing space. -/
def renderLine (line : List Char) : Option ParaD :=
  if pyStrip line = [] then none
  else
    let pl := parse_line line
    if pl.text = [] then none
    else if pl.fmt.is_heading = true ∧ pl.fmt.heading_level ≤ 2 then none
    else if pl.fmt.is_heading = true then
      some { level := 0, bullet := BulletD.buNone,
             runs := apply_heading_format (apply_formatting_to_paragraph pl.text)
                       pl.fmt.heading_level,
             spaceAfter := 6 }
    else if pl.fmt.is_numbered = true then
      some { level := min pl.indent 8,
             bullet := BulletD.buAutoNum
               (if 1 < pl.fmt.number.getD 1 then some (pl.fmt.number.getD 1) else none),
             runs := defaultSize14 (apply_formatting_to_paragraph pl.text),
             spaceAfter := 6 }
    else if pl.fmt.is_bullet = true then
      some { level := min pl.indent 8, bullet := BulletD.inherit,
             runs := defaultSize14 (apply_formatting_to_paragraph pl.text),
             spaceAfter := 6 }
    else
      some { level := 0, bullet := BulletD.buNone,
             runs := defaultSize14 (apply_formatting_to_paragraph pl.text),
             spaceAfter := 6 }

/-- Embedding of Python `str.split("\n")` (empty parts are kept;
`"".split("\n") == [""]`). -/
def splitLines : List Char → List (List Char)
  | [] => [[]]
  | c :: cs =>
    if c == '\n' then [] :: splitLines cs
    else
      match splitLines cs with
      | l :: ls => (c :: l) :: ls
      | [] => [[c]]

/-- Embedding of Python `"\n".flatten(...)`. -/
def joinLines : List (List Char) → List Char
  | [] => []
  | [l] => l
  | l :: ls => l ++ '\n' :: joinLines ls

/-- Embedding of `PPTXGenerator._set_content` as the ordered list of paragraph
descriptors written into the content placeholder (empty content writes
nothing). -/
def set_content (content : List Char) : List ParaD :=
  if content = [] then []
  else (splitLines content).filterMap renderLine

/-- Loop state of `PPTXGenerator._parse_slide_content`. -/
structure PSState where
  title : List Char := []
  remaining : List (List Char) := []
  is_title_slide : Bool := false
  h1_found : Bool := false
  h2_found : Bool := false
  deriving DecidableEq

/-- One iteration of the line loop of `_parse_slide_content`, in source order:
first `# ` on the stripped line while no H1 was seen captures the title and
sets `is_title_slide`; a later `# ` is demoted to `"### " + rest`; first `## `
while neither H2 nor H1 was seen captures the title; a `## ` after any H2 or
H1 is demoted; anything else is appended to the body verbatim. -/
def psStep (st : PSState) (line : List Char) : PSState :=
  let ls := pyStrip line
  if "# ".toList.isPrefixOf ls && !st.h1_found then
    { st with title := pyStrip (ls.drop 2), h1_found := true, is_title_slide := true }
  else if "# ".toList.isPrefixOf ls && st.h1_found then
    { st with remaining := st.remaining ++ ["### ".toList ++ ls.drop 2] }
  else if "## ".toList.isPrefixOf ls && !st.h2_found && !st.h1_found then
    { st with title := pyStrip (ls.drop 3), h2_found := true }
  else if "## ".toList.isPrefixOf ls && (st.h2_found || st.h1_found) then
    { st with remaining := st.remaining ++ ["### ".toList ++ ls.drop 3] }
  else
    { st with remaining := st.remaining ++ [line] }

/-- Result dictionary of `_parse_slide_content`. -/
structure SlideParts where
  title : List Char
  content : List Char
  is_title_slide : Bool
  deriving DecidableEq

/-- Embedding of `PPTXGenerator._parse_slide_content`. -/
def parse_slide_content (content : List Char) : SlideParts :=
  let fin := (splitLines content).foldl psStep {}
  { title := fin.title, content := joinLines fin.remaining,
    is_title_slide := fin.is_title_slide }

/-- Embedding of one separator test of `re.split(r"\n---+\n", text)`, applied
to the text following a `\n`: a maximal run of at least three hyphens followed
by `\n` (a shorter backtracked run would be followed by a hyphen, so greedy
matching is exact).  Returns the text after the separator. -/
def hrAfterNl (cs : List Char) : Option (List Char) :=
  let ds := cs.takeWhile (fun c => c == '-')
  if 3 ≤ ds.length then
    match cs.drop ds.length with
    | c :: rest => if c = '\n' then some rest else none
    | [] => none
  else none

/-- Fueled scan of `re.split(r"\n---+\n", text)`: leftmost non-overlapping
separators split the text into blocks (each separator consumes at least four
characters, so `length + 1` fuel is never exhausted). -/
def hrSplitLoop : Nat → List Char → List (List Char)
  | 0, cs => [cs]
  | _ + 1, [] => [[]]
  | fuel + 1, c :: cs =>
    if c == '\n' then
      match hrAfterNl cs with
      | some rest => [] :: hrSplitLoop fuel rest
      | none =>
        match hrSplitLoop fuel cs with
        | b :: bs => (c :: b) :: bs
        | [] => [[c]]
    else
      match hrSplitLoop fuel cs with
      | b :: bs => (c :: b) :: bs
      | [] => [[c]]

/-- Embedding of `re.split(r"\n---+\n", markdown_text)`. -/
def hrSplit (cs : List Char) : List (List Char) :=
  hrSplitLoop (cs.length + 1) cs

/-- Backtracking match of the tail `\s+(.+)$` of the MULTILINE regex
`^##\s+(.+)$`: greedy `\s+` (which may cross newlines) backtracks down to one
character; `(.+)` takes a nonempty run of non-newline characters, after which
the MULTILINE `$` always holds (next is a newline or the end). -/
def wsTextMlAux (cs : List Char) : Nat → Option (List Char)
  | 0 => none
  | k + 1 =>
    let rest := cs.drop (k + 1)
    let r := rest.takeWhile (fun c => c != '\n')
    if r ≠ [] then some r else wsTextMlAux cs k

/-- Try `##\s+(.+)$` at one MULTILINE anchor position. -/
def tryTitleAt (cs : List Char) : Option (List Char) :=
  if "##".toList.isPrefixOf cs then
    wsTextMlAux (cs.drop 2) ((cs.drop 2).takeWhile pyIsSpace).length
  else none

/-- Scan the remaining anchors (positions just after a newline) for the
title pattern. -/
def searchAfterNl : List Char → Option (List Char)
  | [] => none
  | c :: cs =>
    if c == '\n' then
      match tryTitleAt cs with
      | some t => some t
      | none => searchAfterNl cs
    else searchAfterNl cs

/-- Embedding of `re.search(r"^##\s+(.+)$", content, re.MULTILINE)`: the
leftmost anchor (start of string, or just after a newline) with a match wins. -/
def searchTitle (cs : List Char) : Option (List Char) :=
  match tryTitleAt cs with
  | some t => some t
  | none => searchAfterNl cs

/-- Decimal representation of a natural number, as interpolated by Python
f-strings. -/
def natToChars (n : Nat) : List Char := (Nat.repr n).toList

/-- One slide dictionary produced by `parse_markdown_to_slides`. -/
structure SlideRec where
  id : List Char
  content : List Char
  title : List Char
  order : Nat
  deriving DecidableEq

/-- The slide dictionary built for block index `i` with stripped content `c`:
`{"id": f"slide-{i}", "content": c, "title": ..., "order": i}` where the title
is the first `^##\s+(.+)$` match or `f"Slide {i + 1}"`. -/
def mkSlideRec (i : Nat) (c : List Char) : SlideRec :=
  { id := "slide-".toList ++ natToChars i,
    content := c,
    title := (searchTitle c).getD ("Slide ".toList ++ natToChars (i + 1)),
    order := i }

/-- The `for i, content in enumerate(slide_contents):` loop of
`parse_markdown_to_slides`: blocks that are empty after stripping are
discarded, surviving blocks keep their enumeration index as `order`. -/
def pmsLoop (i : Nat) : List (List Char) → List SlideRec
  | [] => []
  | c :: cs =>
    if pyStrip c = [] then pmsLoop (i + 1) cs
    else mkSlideRec i (pyStrip c) :: pmsLoop (i + 1) cs

/-- Embedding of `app.utils.helpers.parse_markdown_to_slides`. -/
def parse_markdown_to_slides (md : List Char) : List SlideRec :=
  pmsLoop 0 (hrSplit md)

/-- Model of the `try`/`except` line loop of `_set_content` with an abstract
per-line renderer `f` that may raise (`Except.error`): blank lines are skipped
before the `try` block; a raised error is caught and the loop continues with
the next line.  With `f = Except.ok ∘ renderLine` this is exactly
`set_content` (proved in the C7 theorem). -/
def setContentLoopE (f : List Char → Except (List Char) (Option ParaD)) :
    List (List Char) → List ParaD
  | [] => []
  | l :: ls =>
    if pyStrip l = [] then setContentLoopE f ls
    else
      match f l with
      | Except.ok (some p) => p :: setContentLoopE f ls
      | Except.ok none => setContentLoopE f ls
      | Except.error _ => setContentLoopE f ls

/-- A per-line renderer that faults on one designated line and otherwise
behaves like the code; used to witness the error-handling theorem. -/
def errLineF (bad : List Char) : List Char → Except (List Char) (Option ParaD) :=
  fun l => if l = bad then Except.error "boom".toList else Except.ok (renderLine l)

/-- The five flag combinations a segment can carry: none, bold+italic,
bold only, italic only, underline only. -/
def segFlagsOk (s : Segment) : Prop :=
  (s.bold, s.italic, s.underline) = (false, false, false) ∨
  (s.bold, s.italic, s.underline) = (true, true, false) ∨
  (s.bold, s.italic, s.underline) = (true, false, false) ∨
  (s.bold, s.italic, s.underline) = (false, true, false) ∨
  (s.bold, s.italic, s.underline) = (false, false, true)

/-! ## Helper lemmas -/

theorem wsTextEndAux_ne_nil (cs : List Char) :
    ∀ k t, wsTextEndAux cs k = some t → t ≠ [] := by
  intro k
  induction k with
  | zero => intro t h; simp [wsTextEndAux] at h
  | succ n ih =>
    intro t h
    rw [wsTextEndAux] at h
    split at h
    · rename_i hc
      injection h with h'
      subst h'
      exact hc.1
    · exact ih t h

theorem dropWhile_append_of_all (p : Char → Bool) (w l : List Char)
    (h : ∀ c ∈ w, p c = true) : (w ++ l).dropWhile p = l.dropWhile p := by
  induction w with
  | nil => rfl
  | cons a w ih =>
    rw [List.cons_append, List.dropWhile_cons, if_pos (h a (by simp))]
    exact ih (fun c hc => h c (by simp [hc]))

theorem pyStrip_ws_append (w l : List Char) (h : ∀ c ∈ w, pyIsSpace c = true) :
    pyStrip (w ++ l) = pyStrip l := by
  unfold pyStrip pyLStrip
  rw [dropWhile_append_of_all pyIsSpace w l h]

theorem pyRStrip_cons_ne_nil (c : Char) (l : List Char) (hc : pyIsSpace c = false) :
    pyRStrip (c :: l) ≠ [] := by
  intro h
  unfold pyRStrip at h
  rw [List.reverse_eq_nil_iff] at h
  have := List.dropWhile_eq_nil_iff.mp h c (by simp)
  rw [hc] at this
  exact Bool.false_ne_true this

theorem takeWhile_append_cons (p : Char → Bool) (ds : List Char) (x : Char) (r : List Char)
    (h : ∀ c ∈ ds, p c = true) (hx : p x = false) :
    (ds ++ x :: r).takeWhile p = ds := by
  induction ds with
  | nil => simp [List.takeWhile_cons, hx]
  | cons a as ih =>
    rw [List.cons_append, List.takeWhile_cons, if_pos (h a (by simp))]
    rw [ih (fun c hc => h c (by simp [hc]))]

theorem takeWhile_eq_self_of_all (p : Char → Bool) (l : List Char)
    (h : ∀ c ∈ l, p c = true) : l.takeWhile p = l := by
  induction l with
  | nil => rfl
  | cons a as ih =>
    rw [List.takeWhile_cons, if_pos (h a (by simp))]
    rw [ih (fun c hc => h c (by simp [hc]))]

theorem pyIsSpace_of_digit (c : Char) (h : c.isDigit = true) : pyIsSpace c = false := by
  cases hs : pyIsSpace c with
  | false => rfl
  | true =>
    exfalso
    simp only [pyIsSpace, Bool.or_eq_true, beq_iff_eq] at hs
    rcases hs with ((((h1 | h1) | h1) | h1) | h1) | h1 <;> subst h1 <;>
      exact absurd h (by decide)

theorem digit_ne (c x : Char) (h : c.isDigit = true) (hx : x.isDigit = false) : c ≠ x := by
  intro he
  subst he
  rw [h] at hx
  simp at hx

theorem prefix_h1_shape (ls : List Char) (h : "# ".toList.isPrefixOf ls = true) :
    ∃ t, ls = '#' :: ' ' :: t := by
  have he : "# ".toList = ['#', ' '] := rfl
  rw [he] at h
  match ls with
  | [] => simp [List.isPrefixOf] at h
  | [c] => simp [List.isPrefixOf] at h
  | c :: c2 :: t =>
    simp only [List.isPrefixOf, Bool.and_eq_true, beq_iff_eq] at h
    obtain ⟨h1, h2, -⟩ := h
    subst h1; subst h2
    exact ⟨t, rfl⟩

theorem prefix_h2_shape (ls : List Char) (h : "## ".toList.isPrefixOf ls = true) :
    ∃ t, ls = '#' :: '#' :: ' ' :: t := by
  have he : "## ".toList = ['#', '#', ' '] := rfl
  rw [he] at h
  match ls with
  | [] => simp [List.isPrefixOf] at h
  | [c] => simp [List.isPrefixOf] at h
  | [c, c2] => simp [List.isPrefixOf] at h
  | c :: c2 :: c3 :: t =>
    simp only [List.isPrefixOf, Bool.and_eq_true, beq_iff_eq] at h
    obtain ⟨h1, h2, h3, -⟩ := h
    subst h1; subst h2; subst h3
    exact ⟨t, rfl⟩

/-! ## Claim theorems -/

/-- C6: `parse_line "  - item"` returns text `"item"`, indentation level 1 and
the bullet kind; and for every input line, the indentation level equals the
length of the leading whitespace run integer-divided by 2, and the line is
classified (heading / bullet / numbered / plain) on the whitespace-stripped
line. -/
theorem c6_parse_line_indent_and_strip :
    parse_line "  - item".toList = ⟨"item".toList, 1, { is_bullet := true }⟩ ∧
    ∀ l : List Char,
      parse_line l = ⟨(classifyLine (l.dropWhile pyIsSpace)).1,
                      (l.takeWhile pyIsSpace).length / 2,
                      (classifyLine (l.dropWhile pyIsSpace)).2⟩ := by
  refine ⟨by decide, fun l => ?_⟩
  cases l with
  | nil => decide
  | cons c cs =>
    simp only [parse_line, classifyLine, if_neg (List.cons_ne_nil c cs)]
    cases h1 : headingMatch ((c :: cs).dropWhile pyIsSpace) with
    | some kt => obtain ⟨k, t⟩ := kt; rfl
    | none =>
      cases h2 : bulletMatch ((c :: cs).dropWhile pyIsSpace) with
      | some t => rfl
      | none =>
        cases h3 : numberedMatch ((c :: cs).dropWhile pyIsSpace) with
        | some nt => obtain ⟨n, t⟩ := nt; rfl
        | none => rfl

/-- C3 (amended): `extract_formatting_segments "**bold** and *italic*"` yields
exactly the segments ("bold", bold-only), (" and ", no flags),
("italic", italic-only) in that order, and on this input the concatenation of
the segment texts reconstructs the input with each emphasis delimiter removed
exactly once; the universal round-trip claim fails in general (see the
counterexample), because emphasis markers that fall into the plain prefix of a
higher-priority match are emitted verbatim rather than stripped. -/
theorem c3_inline_formatter_example :
    extract_formatting_segments ("**bold** and *italic*".toList) =
      [⟨"bold".toList, true, false, false⟩,
       ⟨" and ".toList, false, false, false⟩,
       ⟨"italic".toList, false, true, false⟩] ∧
    ((extract_formatting_segments ("**bold** and *italic*".toList)).map Segment.text).flatten
      = "bold and italic".toList := by
  exact ⟨by decide, by decide⟩

/-- C3 counterexample: the input "*a* **b**" has balanced emphasis markers,
yet concatenating the segment texts gives "*a* b" — the italic delimiters
around "a" are not removed (they sit in the plain prefix of the
higher-priority bold match), so the result differs from "a b", the input with
each delimiter removed exactly once. -/
theorem c3_counterexample :
    extract_formatting_segments ("*a* **b**".toList) =
      [⟨"*a* ".toList, false, false, false⟩, ⟨"b".toList, true, false, false⟩] ∧
    ((extract_formatting_segments ("*a* **b**".toList)).map Segment.text).flatten
      = "*a* b".toList ∧
    "*a* b".toList ≠ "a b".toList := by
  refine ⟨by decide, by decide, by decide⟩

/-- C8: the rendering pipeline is deterministic — `parse_line`,
`extract_formatting_segments`, `parse_slide_content` and `set_content` are
pure functions of their input in this embedding (no randomness, no input
reshuffling, no clock), so running any of them twice on the same input gives
identical paragraph descriptors. -/
theorem c8_deterministic : ∀ l c : List Char,
    parse_line l = parse_line l ∧
    extract_formatting_segments l = extract_formatting_segments l ∧
    parse_slide_content c = parse_slide_content c ∧
    set_content c = set_content c :=
  fun _ _ => ⟨rfl, rfl, rfl, rfl⟩

/-- C1 counterexample: in the slide content "## A\n# B" the title is first
captured from the H2 line "## A"; the subsequent H1 line "# B" then replaces
the title and sets is_title_slide (instead of being demoted into the body as
the claim states), so a second line contributes to the title. -/
theorem c1_counterexample :
    parse_slide_content "## A\n# B".toList =
      { title := "B".toList, content := [], is_title_slide := true } ∧
    "B".toList ≠ "A".toList := by
  exact ⟨by decide, by decide⟩

/-- C2 counterexample: for the input "A\n---\n\n---\nB" the middle block is
discarded as empty, and the two surviving slides carry orders 0 and 2 and ids
slide-0 and slide-2 — not the consecutive orders 0..k-1 = [0, 1] the claim
asserts for k = 2 surviving slides. -/
theorem c2_counterexample :
    (parse_markdown_to_slides ("A\n---\n\n---\nB".toList)).map SlideRec.order = [0, 2] ∧
    (parse_markdown_to_slides ("A\n---\n\n---\nB".toList)).map SlideRec.id
      = ["slide-0".toList, "slide-2".toList] ∧
    ([0, 2] : List Nat) ≠ List.range 2 := by
  refine ⟨by decide, by decide, by decide⟩

/-- C1 (amended): once the title has been captured from the first H1 line, no
later H1 or H2 line changes the title or is_title_slide — each such line is
demoted to a level-3 heading ("### " plus its text) appended to the body.
While only an H2 title has been captured (no H1 seen), a later H2 is likewise
demoted, but the first later H1 still replaces the title and sets
is_title_slide — so up to two lines may contribute to the title (the first H2,
then the first H1), not at most one. -/
theorem c1_title_demotion_amended :
    (∀ (st : PSState) (l : List Char), st.h1_found = true →
      ("# ".toList.isPrefixOf (pyStrip l) = true ∨
        "## ".toList.isPrefixOf (pyStrip l) = true) →
      psStep st l =
        { st with remaining := st.remaining ++
            [if "## ".toList.isPrefixOf (pyStrip l) = true
             then "### ".toList ++ (pyStrip l).drop 3
             else "### ".toList ++ (pyStrip l).drop 2] }) ∧
    (∀ (st : PSState) (l : List Char), st.h1_found = false → st.h2_found = true →
      "# ".toList.isPrefixOf (pyStrip l) = true →
      psStep st l =
        { st with title := pyStrip ((pyStrip l).drop 2), is_title_slide := true,
                  h1_found := true }) ∧
    (∀ (st : PSState) (l : List Char), st.h1_found = false → st.h2_found = true →
      "## ".toList.isPrefixOf (pyStrip l) = true →
      psStep st l =
        { st with remaining := st.remaining ++ ["### ".toList ++ (pyStrip l).drop 3] }) := by
  refine ⟨?_, ?_, ?_⟩
  · intro st l h1 hpre
    rcases hpre with hp | hp
    · obtain ⟨t, ht⟩ := prefix_h1_shape _ hp
      simp only [psStep, ht, h1]
      simp [List.isPrefixOf]
    · obtain ⟨t, ht⟩ := prefix_h2_shape _ hp
      simp only [psStep, ht, h1]
      simp [List.isPrefixOf]
  · intro st l h1 h2 hp
    obtain ⟨t, ht⟩ := prefix_h1_shape _ hp
    simp only [psStep, ht, h1]
    simp [List.isPrefixOf]
  · intro st l h1 h2 hp
    obtain ⟨t, ht⟩ := prefix_h2_shape _ hp
    simp only [psStep, ht, h1, h2]
    simp [List.isPrefixOf]

/-- Witness for C1: with an H2-captured title ("A", h2_found, no h1) the line
"# B" replaces the title and sets is_title_slide. -/
theorem c1_witness :
    ((⟨"A".toList, [], false, false, true⟩ : PSState).h1_found = false ∧
      (⟨"A".toList, [], false, false, true⟩ : PSState).h2_found = true ∧
      "# ".toList.isPrefixOf (pyStrip "# B".toList) = true) ∧
    psStep ⟨"A".toList, [], false, false, true⟩ "# B".toList =
      { (⟨"A".toList, [], false, false, true⟩ : PSState) with
        title := pyStrip ((pyStrip "# B".toList).drop 2), is_title_slide := true,
        h1_found := true } :=
  ⟨⟨rfl, rfl, by decide⟩,
    c1_title_demotion_amended.2.1 ⟨"A".toList, [], false, false, true⟩ "# B".toList
      rfl rfl (by decide)⟩

/-- C10: the title/body split strips each line before testing the heading
prefixes, so prefixing any amount of whitespace to an H1/H2 line leaves the
per-line transition unchanged; in particular "  # Title" is handled exactly
like "# Title". -/
theorem c10_strip_before_heading_test :
    (∀ (w l : List Char) (st : PSState), (∀ c ∈ w, pyIsSpace c = true) →
      ("# ".toList.isPrefixOf (pyStrip l) = true ∨
        "## ".toList.isPrefixOf (pyStrip l) = true) →
      psStep st (w ++ l) = psStep st l) ∧
    parse_slide_content "  # Title".toList = parse_slide_content "# Title".toList := by
  refine ⟨?_, by decide⟩
  intro w l st hw hpre
  have hs : pyStrip (w ++ l) = pyStrip l := pyStrip_ws_append w l hw
  rcases hpre with hp | hp
  · obtain ⟨t, ht⟩ := prefix_h1_shape _ hp
    simp only [psStep, hs, ht]
    cases h1 : st.h1_found <;> simp [List.isPrefixOf]
  · obtain ⟨t, ht⟩ := prefix_h2_shape _ hp
    simp only [psStep, hs, ht]
    cases h1 : st.h1_found <;> cases h2 : st.h2_found <;> simp [List.isPrefixOf]

/-- Witness for C10: two leading spaces before "# Title" do not change the
transition from the initial state. -/
theorem c10_witness :
    ((∀ c ∈ "  ".toList, pyIsSpace c = true) ∧
      "# ".toList.isPrefixOf (pyStrip "# Title".toList) = true) ∧
    psStep {} ("  ".toList ++ "# Title".toList) = psStep {} "# Title".toList :=
  ⟨⟨by decide, by decide⟩,
    c10_strip_before_heading_test.1 "  ".toList "# Title".toList {}
      (by decide) (Or.inl (by decide))⟩

theorem matchWsTextEnd_ne_nil (cs t : List Char) (h : matchWsTextEnd cs = some t) :
    t ≠ [] :=
  wsTextEndAux_ne_nil cs _ t h

theorem headingMatch_some (line : List Char) (k : Nat) (t : List Char)
    (h : headingMatch line = some (k, t)) :
    (∃ r, line = '#' :: r) ∧ t ≠ [] ∧ 1 ≤ k := by
  simp only [headingMatch] at h
  split at h
  · rename_i hc
    rw [Option.map_eq_some'] at h
    obtain ⟨t', hm, he⟩ := h
    have hk : (line.takeWhile (fun c => c == '#')).length = k := congrArg Prod.fst he
    have htt : t' = t := congrArg Prod.snd he
    subst htt
    refine ⟨?_, matchWsTextEnd_ne_nil _ _ hm, ?_⟩
    · cases hl : line with
      | nil => rw [hl] at hc; simp at hc
      | cons c r =>
        rw [hl] at hc
        rw [List.takeWhile_cons] at hc
        by_cases hch : (c == '#') = true
        · rw [beq_iff_eq] at hch; subst hch; exact ⟨r, rfl⟩
        · rw [if_neg hch] at hc; simp at hc
    · rw [← hk]; exact hc.1
  · exact absurd h (by simp)

theorem parse_line_heading_inv (l : List Char)
    (h : (parse_line l).fmt.is_heading = true) :
    ∃ k t, headingMatch (l.dropWhile pyIsSpace) = some (k, t) ∧
      parse_line l = ⟨t, (l.takeWhile pyIsSpace).length / 2,
                      { is_heading := true, heading_level := k }⟩ := by
  by_cases hl : l = []
  · subst hl; simp [parse_line] at h
  · simp only [parse_line, if_neg hl] at h ⊢
    cases h1 : headingMatch (l.dropWhile pyIsSpace) with
    | some kt =>
      obtain ⟨k, t⟩ := kt
      exact ⟨k, t, rfl, rfl⟩
    | none =>
      rw [h1] at h
      cases h2 : bulletMatch (l.dropWhile pyIsSpace) with
      | some t => rw [h2] at h; simp at h
      | none =>
        rw [h2] at h
        cases h3 : numberedMatch (l.dropWhile pyIsSpace) with
        | some nt => obtain ⟨n, t⟩ := nt; rw [h3] at h; simp at h
        | none => rw [h3] at h; simp at h

/-- C4: a body line classified as a heading of level ≤ 2 produces no
paragraph, and one classified as a heading of level ≥ 3 produces a paragraph
every run of which carries the table font size
{3 ↦ 20, 4 ↦ 18, 5 ↦ 16, 6 ↦ 14, default 16} and bold forced to true,
regardless of any emphasis flags detected by the Inline Formatter. -/
theorem c4_heading_render (line : List Char)
    (h : (parse_line line).fmt.is_heading = true) :
    ((parse_line line).fmt.heading_level ≤ 2 → renderLine line = none) ∧
    (3 ≤ (parse_line line).fmt.heading_level →
      ∃ p, renderLine line = some p ∧
        ∀ r ∈ p.runs,
          r.size = some (font_sizes ((parse_line line).fmt.heading_level)) ∧
          r.bold = some true) := by
  obtain ⟨k, t, hm, hpl⟩ := parse_line_heading_inv line h
  obtain ⟨⟨r, hr⟩, htne, hk1⟩ := headingMatch_some _ _ _ hm
  have hstrip : pyStrip line ≠ [] := by
    unfold pyStrip pyLStrip
    rw [hr]
    exact pyRStrip_cons_ne_nil '#' r (by decide)
  constructor
  · intro hk2
    rw [hpl] at hk2
    simp only [renderLine, hpl, if_neg hstrip]
    rw [if_neg htne, if_pos ⟨trivial, hk2⟩]
  · intro hk3
    rw [hpl] at hk3
    refine ⟨{ level := 0, bullet := BulletD.buNone,
              runs := apply_heading_format (apply_formatting_to_paragraph t) k,
              spaceAfter := 6 }, ?_, ?_⟩
    · simp only [renderLine, hpl, if_neg hstrip]
      rw [if_neg htne, if_neg (by intro hc; exact absurd hc.2 (by simpa using hk3)),
          if_pos trivial]
    · intro rn hrn
      rw [hpl]
      simp only [apply_heading_format, List.mem_map] at hrn
      obtain ⟨a, -, rfl⟩ := hrn
      exact ⟨rfl, rfl⟩

/-- Witness for C4: the line "### Hi" is a level-3 heading and renders with
every run sized 20 pt and bold. -/
theorem c4_witness :
    ((parse_line "### Hi".toList).fmt.is_heading = true ∧
      3 ≤ (parse_line "### Hi".toList).fmt.heading_level) ∧
    ∃ p, renderLine "### Hi".toList = some p ∧
      ∀ r ∈ p.runs,
        r.size = some (font_sizes ((parse_line "### Hi".toList).fmt.heading_level)) ∧
        r.bold = some true :=
  ⟨⟨by decide, by decide⟩,
    (c4_heading_render "### Hi".toList (by decide)).2 (by decide)⟩

theorem wsTextEndAux_one (cs : List Char) :
    wsTextEndAux cs 1 =
      (if (cs.drop 1).takeWhile (fun c => c != '\n') ≠ [] ∧
          ((cs.drop 1).drop ((cs.drop 1).takeWhile (fun c => c != '\n')).length = [] ∨
           (cs.drop 1).drop ((cs.drop 1).takeWhile (fun c => c != '\n')).length = ['\n'])
       then some ((cs.drop 1).takeWhile (fun c => c != '\n'))
       else none) := rfl

/-- C5: a line "n. text" (a nonempty decimal digit string, a period, a single
space, then nonempty text that does not start with whitespace and contains no
newline) is classified as Numbered with number n and the given text, and
rendering it emits an auto-numbered paragraph whose start value is n whenever
n > 1 (and is left at the default otherwise). -/
theorem c5_numbered_restart (ds : List Char) (c0 : Char) (t : List Char)
    (hd : ∀ c ∈ ds, c.isDigit = true) (hne : ds ≠ [])
    (hc0 : pyIsSpace c0 = false) (hnl : ∀ c ∈ c0 :: t, (c != '\n') = true) :
    parse_line (ds ++ '.' :: ' ' :: c0 :: t) =
      ⟨c0 :: t, 0, { is_numbered := true, number := some (digitsVal ds) }⟩ ∧
    ∃ p, renderLine (ds ++ '.' :: ' ' :: c0 :: t) = some p ∧
      p.bullet = BulletD.buAutoNum
        (if 1 < digitsVal ds then some (digitsVal ds) else none) ∧
      (1 < digitsVal ds → p.bullet = BulletD.buAutoNum (some (digitsVal ds))) := by
  obtain ⟨d, ds', rfl⟩ : ∃ d ds', ds = d :: ds' := by
    cases ds with
    | nil => exact absurd rfl hne
    | cons d ds' => exact ⟨d, ds', rfl⟩
  set L := (d :: ds') ++ '.' :: ' ' :: c0 :: t with hL
  have hd0 : d.isDigit = true := hd d (by simp)
  have hdws : pyIsSpace d = false := pyIsSpace_of_digit d hd0
  have hLne : L ≠ [] := by rw [hL, List.cons_append]; exact List.cons_ne_nil _ _
  have htw : L.takeWhile pyIsSpace = [] := by
    rw [hL, List.cons_append, List.takeWhile_cons, if_neg (by simp [hdws])]
  have hdw : L.dropWhile pyIsSpace = L := by
    rw [hL, List.cons_append, List.dropWhile_cons, if_neg (by simp [hdws])]
  have hhm : headingMatch L = none := by
    simp only [headingMatch]
    rw [hL, List.cons_append, List.takeWhile_cons,
        if_neg (by simp [beq_eq_false_iff_ne.mpr (digit_ne d '#' hd0 (by decide))])]
  have hbm : bulletMatch L = none := by
    rw [hL, List.cons_append]
    simp only [bulletMatch]
    rw [if_neg (digit_ne d '-' hd0 (by decide))]
  have htwd : L.takeWhile Char.isDigit = d :: ds' := by
    rw [hL]
    exact takeWhile_append_cons Char.isDigit (d :: ds') '.' (' ' :: c0 :: t) hd (by decide)
  have hdrop : L.drop (d :: ds').length = '.' :: ' ' :: c0 :: t := by
    rw [hL]; exact List.drop_left _ _
  have hrw : (c0 :: t).takeWhile (fun c => c != '\n') = c0 :: t :=
    takeWhile_eq_self_of_all _ _ hnl
  have hksp : (' ' :: c0 :: t).takeWhile pyIsSpace = [' '] := by
    rw [List.takeWhile_cons, if_pos (by decide), List.takeWhile_cons, if_neg (by simp [hc0])]
  have hmw : matchWsTextEnd (' ' :: c0 :: t) = some (c0 :: t) := by
    simp only [matchWsTextEnd, hksp, List.length_cons, List.length_nil]
    rw [wsTextEndAux_one]
    simp only [List.drop_succ_cons, List.drop_zero, hrw]
    simp [List.drop_length]
  have hnm : numberedMatch L = some (digitsVal (d :: ds'), c0 :: t) := by
    simp only [numberedMatch, htwd]
    rw [if_pos (List.cons_ne_nil d ds'), hdrop]
    simp only []
    rw [if_pos trivial, hmw]
    rfl
  have hpl5 : parse_line L =
      ⟨c0 :: t, 0, { is_numbered := true, number := some (digitsVal (d :: ds')) }⟩ := by
    simp only [parse_line, if_neg hLne, htw, hdw, hhm, hbm, hnm]
    simp
  have hstripL : pyStrip L ≠ [] := by
    unfold pyStrip pyLStrip
    rw [hdw, hL, List.cons_append]
    exact pyRStrip_cons_ne_nil d _ hdws
  have hrender : renderLine L = some
      { level := 0,
        bullet := BulletD.buAutoNum
          (if 1 < digitsVal (d :: ds') then some (digitsVal (d :: ds')) else none),
        runs := defaultSize14 (apply_formatting_to_paragraph (c0 :: t)),
        spaceAfter := 6 } := by
    simp only [renderLine, hpl5, if_neg hstripL]
    rw [if_neg (List.cons_ne_nil c0 t)]
    simp
  exact ⟨hpl5, ⟨_, hrender, rfl, fun h => by rw [if_pos h]⟩⟩

/-- Witness for C5: the line "5. step" parses as Numbered 5 "step" and the
rendered list restarts at 5. -/
theorem c5_witness :
    ((∀ c ∈ "5".toList, c.isDigit = true) ∧ "5".toList ≠ [] ∧
      pyIsSpace 's' = false ∧ (∀ c ∈ 's' :: "tep".toList, (c != '\n') = true)) ∧
    (parse_line ("5".toList ++ '.' :: ' ' :: 's' :: "tep".toList) =
      ⟨'s' :: "tep".toList, 0,
        { is_numbered := true, number := some (digitsVal "5".toList) }⟩ ∧
    ∃ p, renderLine ("5".toList ++ '.' :: ' ' :: 's' :: "tep".toList) = some p ∧
      p.bullet = BulletD.buAutoNum
        (if 1 < digitsVal "5".toList then some (digitsVal "5".toList) else none) ∧
      (1 < digitsVal "5".toList →
        p.bullet = BulletD.buAutoNum (some (digitsVal "5".toList)))) :=
  ⟨⟨by decide, by decide, by decide, by decide⟩,
    c5_numbered_restart "5".toList 's' "tep".toList
      (by decide) (by decide) (by decide) (by decide)⟩

theorem setContentLoopE_ok (ls : List (List Char)) :
    setContentLoopE (fun l => Except.ok (renderLine l)) ls = ls.filterMap renderLine := by
  induction ls with
  | nil => rfl
  | cons l ls ih =>
    simp only [setContentLoopE, List.filterMap_cons]
    by_cases h : pyStrip l = []
    · have hrl : renderLine l = none := by rw [renderLine, if_pos h]
      rw [if_pos h, hrl, ih]
    · rw [if_neg h]
      cases hr : renderLine l with
      | none => simp [hr, ih]
      | some p => simp [hr, ih]

/-- C7: the per-line loop of `_set_content` catches a raising line and
continues: for any per-line renderer `f` (the abstract interface to the
fallible `python-pptx` calls inside the `try` block), a line on which `f`
raises contributes no paragraph and the remaining lines of the slide are
processed exactly as without it; and with the never-raising renderer of this
embedding the loop computes exactly `set_content`. -/
theorem c7_error_line_skipped :
    (∀ (f : List Char → Except (List Char) (Option ParaD)) (xs : List (List Char))
        (l : List Char) (ys : List (List Char)) (e : List Char),
      f l = Except.error e →
      setContentLoopE f (xs ++ l :: ys) = setContentLoopE f (xs ++ ys)) ∧
    (∀ content, set_content content =
      setContentLoopE (fun l => Except.ok (renderLine l)) (splitLines content)) := by
  constructor
  · intro f xs l ys e he
    induction xs with
    | nil =>
      simp only [List.nil_append, setContentLoopE]
      by_cases h : pyStrip l = []
      · rw [if_pos h]
      · rw [if_neg h, he]
    | cons x xs ih =>
      simp only [List.cons_append, setContentLoopE, List.append_eq]
      rw [ih]
  · intro content
    by_cases h : content = []
    · subst h; rfl
    · rw [set_content, if_neg h, setContentLoopE_ok]

/-- Witness for C7: a renderer that faults on the middle line "xx" yields the
same paragraphs as the slide without that line. -/
theorem c7_witness :
    errLineF "xx".toList "xx".toList = Except.error "boom".toList ∧
    setContentLoopE (errLineF "xx".toList) (["- a".toList] ++ "xx".toList :: ["- c".toList])
      = setContentLoopE (errLineF "xx".toList) (["- a".toList] ++ ["- c".toList]) :=
  ⟨rfl,
    c7_error_line_skipped.1 (errLineF "xx".toList) ["- a".toList] "xx".toList
      ["- c".toList] "boom".toList rfl⟩

theorem segFlagsOk_of_mem_chunk (pre inner : List Char) (b i u : Bool)
    (hflags : segFlagsOk ⟨inner, b, i, u⟩)
    (tail : List Segment) (htail : ∀ s ∈ tail, segFlagsOk s) :
    ∀ s ∈ preSegs pre ++ ⟨inner, b, i, u⟩ :: tail, segFlagsOk s := by
  intro s hs
  rw [List.mem_append] at hs
  rcases hs with hs | hs
  · simp only [preSegs] at hs
    split at hs
    · simp at hs
    · rw [List.mem_singleton] at hs
      subst hs
      exact Or.inl rfl
  · rw [List.mem_cons] at hs
    rcases hs with hs | hs
    · subst hs; exact hflags
    · exact htail s hs

theorem extractLoop_flags : ∀ (fuel : Nat) (cs : List Char) (s : Segment),
    s ∈ extractLoop fuel cs → segFlagsOk s := by
  intro fuel
  induction fuel with
  | zero => intro cs s h; simp [extractLoop] at h
  | succ n ih =>
    intro cs s h
    cases cs with
    | nil => simp [extractLoop] at h
    | cons c cs' =>
      simp only [extractLoop] at h
      cases h1 : scanPair "***".toList "___".toList (c :: cs') with
      | some x =>
        obtain ⟨pre, inner, rest⟩ := x
        simp only [h1] at h
        exact segFlagsOk_of_mem_chunk pre inner true true false (by simp [segFlagsOk])
          _ (fun s hs => ih rest s hs) s h
      | none =>
        simp only [h1] at h
        cases h2 : scanPair "**".toList "__".toList (c :: cs') with
        | some x =>
          obtain ⟨pre, inner, rest⟩ := x
          simp only [h2] at h
          exact segFlagsOk_of_mem_chunk pre inner true false false (by simp [segFlagsOk])
            _ (fun s hs => ih rest s hs) s h
        | none =>
          simp only [h2] at h
          cases h3 : (match scanItalic '*' none (c :: cs') with
                      | some r => some r
                      | none => scanItalic '_' none (c :: cs')) with
          | some x =>
            obtain ⟨pre, inner, rest⟩ := x
            simp only [h3] at h
            exact segFlagsOk_of_mem_chunk pre inner false true false (by simp [segFlagsOk])
              _ (fun s hs => ih rest s hs) s h
          | none =>
            simp only [h3] at h
            cases h4 : scanUnderline (c :: cs') with
            | some x =>
              obtain ⟨pre, inner, rest⟩ := x
              simp only [h4] at h
              exact segFlagsOk_of_mem_chunk pre inner false false true (by simp [segFlagsOk])
                _ (fun s hs => ih rest s hs) s h
            | none =>
              simp only [h4] at h
              rw [List.mem_singleton] at h
              subst h
              exact Or.inl rfl

/-- C9: every segment returned by `extract_formatting_segments` carries one of
exactly five flag combinations — no flags, bold+italic, bold only, italic
only, or underline only; in particular underline never combines with bold or
italic and no segment carries all three flags. -/
theorem c9_segment_flags (text : List Char) :
    ∀ s ∈ extract_formatting_segments text, segFlagsOk s := by
  intro s hs
  simp only [extract_formatting_segments] at hs
  split at hs
  · rw [List.mem_singleton] at hs; subst hs; exact Or.inl rfl
  · split at hs
    · rw [List.mem_singleton] at hs; subst hs; exact Or.inl rfl
    · exact extractLoop_flags _ _ s hs

/-- Witness for C9: the bold-only segment of "**b**" satisfies the flag
invariant. -/
theorem c9_witness :
    (⟨"b".toList, true, false, false⟩ : Segment) ∈
      extract_formatting_segments "**b**".toList ∧
    segFlagsOk ⟨"b".toList, true, false, false⟩ :=
  ⟨by decide,
    c9_segment_flags "**b**".toList ⟨"b".toList, true, false, false⟩ (by decide)⟩

theorem pmsLoop_spec (bs : List (List Char)) : ∀ i : Nat,
    (pmsLoop i bs).map SlideRec.content = ((bs.map pyStrip).filter (fun c => c ≠ [])) ∧
    (pmsLoop i bs).map SlideRec.order
      = (((bs.map pyStrip).enumFrom i).filter (fun p => p.2 ≠ [])).map Prod.fst ∧
    (pmsLoop i bs).map SlideRec.id
      = (((bs.map pyStrip).enumFrom i).filter (fun p => p.2 ≠ [])).map
          (fun p => "slide-".toList ++ natToChars p.1) := by
  induction bs with
  | nil => intro i; exact ⟨rfl, rfl, rfl⟩
  | cons b bs ih =>
    intro i
    obtain ⟨ih1, ih2, ih3⟩ := ih (i + 1)
    by_cases h : pyStrip b = []
    · simp only [pmsLoop, if_pos h, h, List.map_cons, List.enumFrom_cons, List.filter_cons]
      simp [ih1, ih2, ih3]
    · simp only [pmsLoop, if_neg h, List.map_cons, List.enumFrom_cons, List.filter_cons]
      simp [h, ih1, ih2, ih3, mkSlideRec]

/-- C2 (amended): the document split discards blocks that are empty after
trimming, and each surviving block keeps the 0-based index of its position in
the original split as its order (with id "slide-" + that index) — so orders
are the indices of the nonempty-after-trimming blocks and may skip values of
discarded blocks rather than always being 0..k-1; the input "A\n---\nB\n---\nC"
(no discarded block) yields exactly three slides with contents "A", "B", "C"
and orders 0, 1, 2. -/
theorem c2_document_split :
    parse_markdown_to_slides ("A\n---\nB\n---\nC".toList) =
      [⟨"slide-0".toList, "A".toList, "Slide 1".toList, 0⟩,
       ⟨"slide-1".toList, "B".toList, "Slide 2".toList, 1⟩,
       ⟨"slide-2".toList, "C".toList, "Slide 3".toList, 2⟩] ∧
    ∀ md : List Char,
      (parse_markdown_to_slides md).map SlideRec.content
        = ((hrSplit md).map pyStrip).filter (fun c => c ≠ []) ∧
      (parse_markdown_to_slides md).map SlideRec.order
        = ((((hrSplit md).map pyStrip).enum).filter (fun p => p.2 ≠ [])).map Prod.fst ∧
      (parse_markdown_to_slides md).map SlideRec.id
        = ((((hrSplit md).map pyStrip).enum).filter (fun p => p.2 ≠ [])).map
            (fun p => "slide-".toList ++ natToChars p.1) := by
  refine ⟨by decide, fun md => ?_⟩
  have h := pmsLoop_spec (hrSplit md) 0
  simpa [parse_markdown_to_slides, List.enum] using h

